import Mathlib

/-!
Verification development for the `Calendario/finanzas_app.py` personal-finance
application (Streamlit + Supabase).

Shallow embedding conventions:
* Monetary amounts are embedded as exact rationals `ℚ`.  The Python code holds
  amounts in pandas `float64` columns; every property proved here concerns the
  algebraic shape of the computations (which rows are summed, in which order,
  which guards fire), not binary floating-point rounding, which this embedding
  does not model.
* Dates (`tdate`) are embedded as an integer day key (e.g. `20240101` stands
  for 2024-01-01); the code only ever compares dates with `<=`/`>=` and groups
  by equality, so any linearly ordered key is faithful.
* The remote Supabase store is embedded as an explicit `Store` value holding the
  `categories` and `transactions` tables (rows of every owner); each data-layer
  function filters by `user_id` exactly as the code's `.eq("user_id", ...)` does.
* Streamlit UI guards that wrap a data-layer call (the `amount <= 0` and
  `(sin categorías)` checks before `add_transaction`, the associated-movements
  check before `delete_category`) are embedded together with the call they
  guard, returning `Except` where the UI reports an error and does not call
  the data layer.
-/

namespace Finanzas

/-- The three movement kinds used by the app: `"ingreso"`, `"gasto"`, `"inversion"`. -/
inductive Kind where
  | ingreso
  | gasto
  | inversion
deriving DecidableEq

/-- A row of the `transactions` table:
`transactions(id, user_id, tdate, amount, kind, category, note)`. -/
structure Transaction where
  id : Nat
  user_id : String
  tdate : Int
  amount : ℚ
  kind : Kind
  category : String
  note : String
deriving DecidableEq

/-- A row of the `categories` table: `categories(id, user_id, name, kind)`.
The server-assigned surrogate `id` is elided: no operation of the app reads it
(categories are addressed by `name`). -/
structure Category where
  user_id : String
  name : String
  kind : Kind
deriving DecidableEq

/-- The remote relational store: both tables, all owners.  `next_id` models the
store's id sequence for inserted transactions. -/
structure Store where
  categories : List Category
  transactions : List Transaction
  next_id : Nat
deriving DecidableEq

/-- Errors surfaced by the UI guards (§7 taxonomy of the spec). -/
inductive AppError where
  | CategoryInUse
  | InvalidAmount
  | NoCategory
deriving DecidableEq

/-! ### Data layer (`load_*`, `ensure_default_categories`, mutations) -/

/-- Raw transaction row as returned by the remote store, before pandas
coercion: `amount_raw = none` models a value on which `pd.to_numeric(...,
errors="coerce")` fails (producing `NaN`, then `fillna(0.0)`). -/
structure RawTx where
  id : Nat
  user_id : String
  tdate : Int
  amount_raw : Option ℚ
  kind : Kind
  category : String
  note : String
deriving DecidableEq

/-- Date-ascending order used by `.order("tdate")`. -/
def byDateAsc (a b : RawTx) : Prop := a.tdate ≤ b.tdate

instance : DecidableRel byDateAsc := fun a b => inferInstanceAs (Decidable (a.tdate ≤ b.tdate))

instance : IsTotal RawTx byDateAsc := ⟨fun a b => le_total a.tdate b.tdate⟩

instance : IsTrans RawTx byDateAsc := ⟨fun _ _ _ h1 h2 => le_trans h1 h2⟩

/-- Pandas coercion of one raw row (`finanzas_app.py:100-102`):
`df["amount"] = pd.to_numeric(df["amount"], errors="coerce").fillna(0.0)`. -/
def coerceTx (r : RawTx) : Transaction :=
  { id := r.id, user_id := r.user_id, tdate := r.tdate,
    amount := r.amount_raw.getD 0, kind := r.kind, category := r.category,
    note := r.note }

/-- `load_transactions(user_id)` (`finanzas_app.py:94-103`): select the owner's
rows, ordered by `tdate` ascending (`.order("tdate")`), then coerce amounts
leniently.  `db` is the current content of the remote `transactions` table. -/
def load_transactions (user_id : String) (db : List RawTx) : List Transaction :=
  (List.insertionSort byDateAsc (db.filter fun r => decide (r.user_id = user_id))).map coerceTx

/-- Name-ascending order used by `.order("name")` in `load_categories`. -/
def byNameAsc (a b : Category) : Prop := a.name ≤ b.name

instance : DecidableRel byNameAsc := fun a b => inferInstanceAs (Decidable (a.name ≤ b.name))

instance : IsTotal Category byNameAsc := ⟨fun a b => le_total a.name b.name⟩

instance : IsTrans Category byNameAsc := ⟨fun _ _ _ h1 h2 => le_trans h1 h2⟩

/-- `load_categories(user_id)` (`finanzas_app.py:105-110`). -/
def load_categories (user_id : String) (s : Store) : List Category :=
  List.insertionSort byNameAsc (s.categories.filter fun c => decide (c.user_id = user_id))

/-- The fixed seed set inserted for a fresh owner (`finanzas_app.py:117-123`). -/
def defaults : List (String × Kind) :=
  [("Sueldo", .ingreso), ("Extra", .ingreso),
   ("Alquiler", .gasto), ("Comida", .gasto), ("Transporte", .gasto),
   ("Servicios", .gasto), ("Entretenimiento", .gasto),
   ("Salud", .gasto), ("Educación", .gasto),
   ("Ahorro/ETF", .inversion), ("Cripto", .inversion), ("Plazo Fijo", .inversion)]

/-- `ensure_default_categories(user_id)` (`finanzas_app.py:112-129`): if the
owner already has a category, return unchanged; otherwise insert the seed set. -/
def ensure_default_categories (user_id : String) (s : Store) : Store :=
  if load_categories user_id s ≠ [] then s
  else { s with categories :=
          s.categories ++ defaults.map fun nk => ⟨user_id, nk.1, nk.2⟩ }

/-- `delete_category(user_id, name, reassign_to)` (`finanzas_app.py:135-140`):
when a reassign target is given, first update every transaction of the owner
referencing `name` to the target, then delete the owner's category row(s)
named `name`. -/
def delete_category (user_id name : String) (reassign_to : Option String) (s : Store) : Store :=
  let txs := match reassign_to with
    | some r => s.transactions.map fun t =>
        if t.user_id = user_id ∧ t.category = name then { t with category := r } else t
    | none => s.transactions
  { s with transactions := txs,
           categories := s.categories.filter fun c =>
             decide (¬(c.user_id = user_id ∧ c.name = name)) }

/-- Number of the owner's transactions referencing a category name, as computed
by the UI (`finanzas_app.py:243-244`: `(tx_df["category"] == cat_del).sum()`). -/
def countAssoc (user_id name : String) (s : Store) : Nat :=
  (s.transactions.filter fun t => decide (t.user_id = user_id ∧ t.category = name)).length

/-- The "Borrar categoría" flow (`finanzas_app.py:253-258` around
`delete_category`): with associated movements and no reassign target the UI
reports an error and does not touch the store; otherwise it calls
`delete_category`. -/
def deleteCategoryUI (user_id name : String) (reassign_to : Option String) (s : Store) :
    Except AppError Store :=
  if countAssoc user_id name s > 0 ∧ reassign_to = none then .error .CategoryInUse
  else .ok (delete_category user_id name reassign_to s)

/-- `add_transaction(...)` (`finanzas_app.py:142-151`): unconditional insert of
one row; the store assigns the id. -/
def add_transaction (user_id : String) (tdate : Int) (amount : ℚ) (kind : Kind)
    (category note : String) (s : Store) : Store :=
  { s with
    transactions := s.transactions ++
      [{ id := s.next_id, user_id := user_id, tdate := tdate, amount := amount,
         kind := kind, category := category, note := note }],
    next_id := s.next_id + 1 }

/-- The sentinel shown by the category selectbox when the owner has no category
of the chosen kind (`finanzas_app.py:210`). -/
def sinCategorias : String := "(sin categorías)"

/-- The "Agregar" flow (`finanzas_app.py:214-221`): the UI rejects the
placeholder category, then rejects `amount <= 0`, and only then calls
`add_transaction`. -/
def addTransactionUI (user_id : String) (tdate : Int) (amount : ℚ) (kind : Kind)
    (category note : String) (s : Store) : Except AppError Store :=
  if category = sinCategorias then .error .NoCategory
  else if amount ≤ 0 then .error .InvalidAmount
  else .ok (add_transaction user_id tdate amount kind category note s)

/-! ### Period aggregator -/

/-- Range filter (`finanzas_app.py:296-300`):
`df[(df["tdate"] >= start) & (df["tdate"] <= end)]`, with the empty frame
returned as-is. -/
def filterByRange (df : List Transaction) (start finish : Int) : List Transaction :=
  if df.isEmpty then df
  else df.filter fun t => decide (start ≤ t.tdate ∧ t.tdate ≤ finish)

/-- Sum of amounts of one kind (`fdf.loc[fdf["kind"]==k, "amount"].sum()`). -/
def sumKind (fdf : List Transaction) (k : Kind) : ℚ :=
  ((fdf.filter fun t => decide (t.kind = k)).map Transaction.amount).sum

/-- The KPI figures of `finanzas_app.py:302-306` (`ing`, `gas`, `inv`,
`balance`). -/
structure KPIs where
  ing : ℚ
  gas : ℚ
  inv : ℚ
  balance : ℚ
deriving DecidableEq

/-- KPIs over the filtered frame (`finanzas_app.py:302-306`), including the
literal `if not fdf.empty else 0.0` branches. -/
def kpis (fdf : List Transaction) : KPIs :=
  let ing := if fdf.isEmpty then 0 else sumKind fdf .ingreso
  let gas := if fdf.isEmpty then 0 else sumKind fdf .gasto
  let inv := if fdf.isEmpty then 0 else sumKind fdf .inversion
  { ing := ing, gas := gas, inv := inv, balance := ing - gas - inv }

/-- Signed amount of one row (`finanzas_app.py:326-327`): `+amount` for
`ingreso`, `-amount` for `gasto`; the following line overwrites the
`inversion` rows with `-amount` as well ("inversión como salida"). -/
def signedAmount (t : Transaction) : ℚ :=
  let delta := if t.kind = .ingreso then t.amount else -t.amount
  if t.kind = .inversion then -t.amount else delta

/-- The distinct `tdate` keys of the frame in ascending order: the group keys
produced by `tmp.groupby("tdate")` (pandas sorts group keys). -/
def bucketDates (fdf : List Transaction) : List Int :=
  List.insertionSort (· ≤ ·) (fdf.map Transaction.tdate).dedup

/-- Per-day net (`g["delta"]` after `groupby("tdate")["delta"].sum()`). -/
def bucketNet (fdf : List Transaction) (d : Int) : ℚ :=
  ((fdf.filter fun t => decide (t.tdate = d)).map signedAmount).sum

/-- One row of the chart frame `g`: date, net delta, cumulative `saldo`. -/
structure SeriesRow where
  tdate : Int
  delta : ℚ
  saldo : ℚ
deriving DecidableEq

/-- Builds the rows of `g` over a list of group keys, threading the running
cumulative sum (`g["saldo"] = g["delta"].cumsum()`). -/
def seriesAux (fdf : List Transaction) : List Int → ℚ → List SeriesRow
  | [], _ => []
  | d :: ds, acc =>
      let n := bucketNet fdf d
      ⟨d, n, acc + n⟩ :: seriesAux fdf ds (acc + n)

/-- The balance chart frame (`finanzas_app.py:325-329`): group the frame by
`tdate`, sum signed deltas per day, then take the cumulative sum. -/
def balanceSeries (fdf : List Transaction) : List SeriesRow :=
  seriesAux fdf (bucketDates fdf) 0

/-! ### Category summary (`finanzas_app.py:334-366`) -/

/-- The choices of the "Tipo de movimientos a resumir" radio: a single kind or
"salidas (gasto + inversión)". -/
inductive TipoResumen where
  | single (k : Kind)
  | salidas
deriving DecidableEq

/-- The sub-frame summarised (`finanzas_app.py:349-353`). -/
def subFor (fdf : List Transaction) : TipoResumen → List Transaction
  | .single k => fdf.filter fun t => decide (t.kind = k)
  | .salidas => fdf.filter fun t => decide (t.kind = .gasto ∨ t.kind = .inversion)

/-- Total amount of one category within the sub-frame
(`agg(total=("amount", "sum"))`). -/
def catTotal (sub : List Transaction) (c : String) : ℚ :=
  ((sub.filter fun t => decide (t.category = c)).map Transaction.amount).sum

/-- Row count of one category (`operaciones=("id", "count")`). -/
def catCount (sub : List Transaction) (c : String) : Nat :=
  (sub.filter fun t => decide (t.category = c)).length

/-- The distinct category names of the sub-frame (the `groupby("category")`
keys).  Pandas emits the keys alphabetically; this embedding keeps the same
set of distinct names in `List.dedup` order.  The subsequent `sort_values("total",
ascending=False)` reorders the rows by total anyway, and pandas' unstable
quicksort leaves the relative order of equal-total rows unspecified, so no
property verified here depends on the pre-sort key order. -/
def catNames (sub : List Transaction) : List String :=
  (sub.map Transaction.category).dedup

/-- A grouped row before the percentage column is added. -/
structure CatRow0 where
  category : String
  total : ℚ
  operaciones : Nat
deriving DecidableEq

/-- Descending-total order used by `.sort_values("total", ascending=False)`. -/
def byTotalDesc (a b : CatRow0) : Prop := b.total ≤ a.total

instance : DecidableRel byTotalDesc := fun a b => inferInstanceAs (Decidable (b.total ≤ a.total))

instance : IsTotal CatRow0 byTotalDesc := ⟨fun a b => le_total b.total a.total⟩

instance : IsTrans CatRow0 byTotalDesc := ⟨fun _ _ _ h1 h2 => le_trans h2 h1⟩

/-- `resumen` before the percentage column (`finanzas_app.py:360-364`): group
by category, aggregate sum and count, sort by total descending. -/
def categoryRows (sub : List Transaction) : List CatRow0 :=
  List.insertionSort byTotalDesc
    ((catNames sub).map fun c => ⟨c, catTotal sub c, catCount sub c⟩)

/-- `total_general = resumen["total"].sum()` (`finanzas_app.py:365`). -/
def totalGeneral (sub : List Transaction) : ℚ :=
  ((categoryRows sub).map CatRow0.total).sum

/-- Rounding to 2 decimal places (`.round(2)`); ties are rounded with
Mathlib's `round` (the claims under verification do not depend on the
tie-breaking rule, only on the error bound `1/200`). -/
def round2 (q : ℚ) : ℚ := (round (q * 100) : ℤ) / 100

/-- A row of `resumen` with its `% del total` column. -/
structure CatRow where
  category : String
  total : ℚ
  operaciones : Nat
  pct : ℚ
deriving DecidableEq

/-- The full category summary (`finanzas_app.py:360-366`):
`resumen["% del total"] = (resumen["total"] / total_general * 100).round(2)`.
In pandas a zero `total_general` makes the float division produce `NaN`
without raising; in this exact-rational embedding division by zero yields `0`,
so the operation is total in both semantics. -/
def categorySummary (sub : List Transaction) : List CatRow :=
  (categoryRows sub).map fun r =>
    ⟨r.category, r.total, r.operaciones, round2 (r.total / totalGeneral sub * 100)⟩

/-! ### Session state and `sign_out` -/

/-- The browser-scoped mutable session (`st.session_state` plus the
`st.cache_data` entries): the stored identity, the Supabase tokens, and the
keys of cached collections. -/
structure SessionState where
  user : Option (String × String)
  sb_session : Option (String × String)
  cache_keys : List String
deriving DecidableEq

/-- `sign_out()` (`finanzas_app.py:66-75`): the remote `auth.sign_out()` call
is wrapped in `try/except: pass`, so its outcome (`remote`) is discarded;
then `user` and `sb_session` are popped and the data cache is cleared. -/
def sign_out (remote : Except String Unit) (st : SessionState) : SessionState :=
  match remote with
  | .ok _ => { st with user := none, sb_session := none, cache_keys := [] }
  | .error _ => { st with user := none, sb_session := none, cache_keys := [] }

/-! ### Concrete example data used by scenario conjuncts and witnesses -/

/-- The spec's KPI scenario ledger: `[{2024-01-01, 1000, income, Salary},
{2024-01-15, 300, expense, Food}, {2024-01-20, 200, investment, Savings}]`,
with the code's Spanish kind and category names. -/
def exScenario : List Transaction :=
  [⟨1, "u", 20240101, 1000, .ingreso, "Sueldo", ""⟩,
   ⟨2, "u", 20240115, 300, .gasto, "Comida", ""⟩,
   ⟨3, "u", 20240120, 200, .inversion, "Ahorro/ETF", ""⟩]

/-- A store with two categories and one transaction referencing `"Food"`. -/
def exStoreFood : Store :=
  ⟨[⟨"u", "Food", .gasto⟩, ⟨"u", "Other", .gasto⟩],
   [⟨1, "u", 20240110, 50, .gasto, "Food", ""⟩], 2⟩

/-- An empty store for a fresh owner. -/
def store0 : Store := ⟨[], [], 0⟩

/-- A three-row frame over two days, used to exercise the balance series. -/
def exSeries : List Transaction :=
  [⟨1, "u", 10, 100, .ingreso, "Sueldo", ""⟩,
   ⟨2, "u", 5, 30, .gasto, "Comida", ""⟩,
   ⟨3, "u", 10, 20, .inversion, "Cripto", ""⟩]

/-- A frame with one expense category (`Comida`, two movements, total 70). -/
def exCats : List Transaction :=
  [⟨1, "u", 1, 50, .gasto, "Comida", ""⟩,
   ⟨3, "u", 3, 20, .gasto, "Comida", ""⟩]

/-- Remote rows for one owner, one of which has an uncoercible amount. -/
def exRaw : List RawTx :=
  [⟨1, "u", 20240105, some 10, .ingreso, "Sueldo", ""⟩,
   ⟨2, "u", 20240103, none, .gasto, "Comida", ""⟩,
   ⟨3, "v", 20240101, some 7, .gasto, "Comida", ""⟩]

/-! ## Theorems

Helper rewriting facts: the pairwise disequalities of `Kind` constructors,
used to evaluate concrete frames (rationals block kernel-level `decide`, so
concrete goals are reduced with `simp`/`norm_num` instead). -/

theorem gasto_ne_ingreso : (Kind.gasto = Kind.ingreso) = False :=
  eq_false fun h => Kind.noConfusion h

theorem inversion_ne_ingreso : (Kind.inversion = Kind.ingreso) = False :=
  eq_false fun h => Kind.noConfusion h

theorem ingreso_ne_gasto : (Kind.ingreso = Kind.gasto) = False :=
  eq_false fun h => Kind.noConfusion h

theorem inversion_ne_gasto : (Kind.inversion = Kind.gasto) = False :=
  eq_false fun h => Kind.noConfusion h

theorem ingreso_ne_inversion : (Kind.ingreso = Kind.inversion) = False :=
  eq_false fun h => Kind.noConfusion h

theorem gasto_ne_inversion : (Kind.gasto = Kind.inversion) = False :=
  eq_false fun h => Kind.noConfusion h

/-- C1: KPIs are the per-kind sums of the filtered frame, `balance` is their
signed combination, the empty frame yields all-zero KPIs, and the spec's
scenario produces `{income 1000, expense 300, investment 200, balance 500}`. -/
theorem kpis_spec :
    (∀ fdf : List Transaction,
      (kpis fdf).ing =
        ((fdf.filter fun t => decide (t.kind = Kind.ingreso)).map Transaction.amount).sum ∧
      (kpis fdf).gas =
        ((fdf.filter fun t => decide (t.kind = Kind.gasto)).map Transaction.amount).sum ∧
      (kpis fdf).inv =
        ((fdf.filter fun t => decide (t.kind = Kind.inversion)).map Transaction.amount).sum ∧
      (kpis fdf).balance = (kpis fdf).ing - (kpis fdf).gas - (kpis fdf).inv) ∧
    kpis [] = ⟨0, 0, 0, 0⟩ ∧
    kpis (filterByRange exScenario 20240101 20240131) = ⟨1000, 300, 200, 500⟩ := by
  refine ⟨fun fdf => ?_, by simp [kpis], by
    norm_num [kpis, filterByRange, exScenario, sumKind, List.filter_cons, KPIs.mk.injEq,
      gasto_ne_ingreso, inversion_ne_ingreso, ingreso_ne_gasto, inversion_ne_gasto,
      ingreso_ne_inversion, gasto_ne_inversion]⟩
  cases fdf with
  | nil => simp [kpis, sumKind]
  | cons a l => simp [kpis, sumKind]

/-- C7: the range filter keeps exactly the rows with `start ≤ tdate ≤ finish`
(a sublist of the input), yields `[]` on empty input or empty intersection,
and is idempotent. -/
theorem filterByRange_spec :
    ∀ (df : List Transaction) (start finish : Int),
      (∀ t, t ∈ filterByRange df start finish ↔
        t ∈ df ∧ start ≤ t.tdate ∧ t.tdate ≤ finish) ∧
      (filterByRange df start finish).Sublist df ∧
      filterByRange [] start finish = [] ∧
      ((∀ t ∈ df, ¬(start ≤ t.tdate ∧ t.tdate ≤ finish)) →
        filterByRange df start finish = []) ∧
      filterByRange (filterByRange df start finish) start finish =
        filterByRange df start finish := by
  intro df start finish
  cases df with
  | nil => simp [filterByRange]
  | cons a l =>
      have hne : ¬(a :: l).isEmpty := by simp
      have hval : filterByRange (a :: l) start finish =
          (a :: l).filter fun t => decide (start ≤ t.tdate ∧ t.tdate ≤ finish) := by
        simp [filterByRange]
      refine ⟨?_, ?_, by simp [filterByRange], ?_, ?_⟩
      · intro t
        rw [hval, List.mem_filter]
        simp
      · rw [hval]; exact List.filter_sublist _
      · intro h
        rw [hval, List.filter_eq_nil_iff]
        intro t ht
        simpa using h t ht
      · rw [hval, filterByRange]
        by_cases hemp :
            ((a :: l).filter fun t => decide (start ≤ t.tdate ∧ t.tdate ≤ finish)).isEmpty
        · simp [hemp]
        · simp [hemp, List.filter_filter, Bool.and_self]

/-- C10: `sign_out` clears the stored identity, the session tokens, and the
data cache, whether or not the remote sign-out call succeeds. -/
theorem sign_out_spec :
    ∀ (remote : Except String Unit) (st : SessionState),
      (sign_out remote st).user = none ∧
      (sign_out remote st).sb_session = none ∧
      (sign_out remote st).cache_keys = [] := by
  intro remote st
  cases remote <;> simp [sign_out]

/-- C5 counterexample: when the category selectbox holds the
`"(sin categorías)"` placeholder (the state of a fresh owner with no category
of the chosen kind), the "Agregar" flow rejects the input before the amount
check: with `amount = 0` it does not fail with `InvalidAmount`, and with
`amount = 5 > 0` it does not insert. -/
theorem addTransaction_placeholder_counterexample :
    addTransactionUI "u" 20240601 0 Kind.gasto sinCategorias "" store0 =
      .error .NoCategory ∧
    addTransactionUI "u" 20240601 5 Kind.gasto sinCategorias "" store0 =
      .error .NoCategory ∧
    AppError.NoCategory ≠ AppError.InvalidAmount :=
  ⟨by simp [addTransactionUI], by simp [addTransactionUI], by decide⟩

/-- C5 (amended): for any category other than the `"(sin categorías)"`
placeholder, the "Agregar" flow fails with `InvalidAmount` whenever
`amount ≤ 0` (storing nothing), and inserts the transaction whenever
`amount > 0`. -/
theorem addTransaction_spec :
    ∀ (s : Store) (uid : String) (d : Int) (amount : ℚ) (k : Kind) (cat nt : String),
      cat ≠ sinCategorias →
      (amount ≤ 0 →
        addTransactionUI uid d amount k cat nt s = .error .InvalidAmount) ∧
      (0 < amount →
        addTransactionUI uid d amount k cat nt s =
          .ok { s with
                transactions := s.transactions ++
                  [⟨s.next_id, uid, d, amount, k, cat, nt⟩],
                next_id := s.next_id + 1 }) := by
  intro s uid d amount k cat nt hcat
  constructor
  · intro hle
    simp [addTransactionUI, hcat, hle]
  · intro hpos
    simp [addTransactionUI, add_transaction, hcat, not_le.mpr hpos]

/-- Witness for the amended C5 theorem at concrete inputs. -/
theorem addTransaction_spec_witness :
    addTransactionUI "u" 20240601 (-5) Kind.gasto "Comida" "" store0 =
      .error .InvalidAmount ∧
    addTransactionUI "u" 20240601 100 Kind.ingreso "Sueldo" "" store0 =
      .ok { store0 with
            transactions := store0.transactions ++
              [⟨store0.next_id, "u", 20240601, 100, Kind.ingreso, "Sueldo", ""⟩],
            next_id := store0.next_id + 1 } :=
  ⟨(addTransaction_spec store0 "u" 20240601 (-5) Kind.gasto "Comida" ""
      (by decide)).1 (by norm_num),
   (addTransaction_spec store0 "u" 20240601 100 Kind.ingreso "Sueldo" ""
      (by decide)).2 (by norm_num)⟩

/-- C6: `ensure_default_categories` seeds the fixed default set for an owner
with zero categories, is a no-op for an owner that has any, and running it
twice equals running it once (the second call is a no-op). -/
theorem ensure_default_categories_spec :
    ∀ (s : Store) (uid : String),
      (load_categories uid s = [] →
        ensure_default_categories uid s =
          { s with categories :=
              s.categories ++ defaults.map fun nk => ⟨uid, nk.1, nk.2⟩ }) ∧
      (load_categories uid s ≠ [] → ensure_default_categories uid s = s) ∧
      ensure_default_categories uid (ensure_default_categories uid s) =
        ensure_default_categories uid s := by
  intro s uid
  have hstep : ∀ s2 : Store, load_categories uid s2 ≠ [] →
      ensure_default_categories uid s2 = s2 := by
    intro s2 h2
    simp [ensure_default_categories, h2]
  refine ⟨fun h => by simp [ensure_default_categories, h], hstep s, ?_⟩
  by_cases h : load_categories uid s = []
  · have hseed : ensure_default_categories uid s =
        { s with categories :=
            s.categories ++ defaults.map fun nk => ⟨uid, nk.1, nk.2⟩ } := by
      simp [ensure_default_categories, h]
    have hmem : (⟨uid, "Sueldo", Kind.ingreso⟩ : Category) ∈
        ((ensure_default_categories uid s).categories.filter fun c =>
          decide (c.user_id = uid)) := by
      rw [hseed]
      refine List.mem_filter.mpr ⟨?_, by simp⟩
      exact List.mem_append.mpr (Or.inr (by simp [defaults]))
    have hne : load_categories uid (ensure_default_categories uid s) ≠ [] := by
      intro hnil
      have hperm := List.perm_insertionSort byNameAsc
        ((ensure_default_categories uid s).categories.filter fun c =>
          decide (c.user_id = uid))
      rw [load_categories] at hnil
      rw [hnil] at hperm
      exact List.not_mem_nil _ (hperm.symm.mem_iff.mp hmem)
    exact hstep _ hne
  · have hid : ensure_default_categories uid s = s := hstep s h
    rw [hid]
    exact hid

/-- Witness for C6 at a fresh owner: the empty store is seeded with the
default categories. -/
theorem ensure_default_categories_spec_witness :
    load_categories "u" store0 = [] ∧
    ensure_default_categories "u" store0 =
      { store0 with categories :=
          store0.categories ++ defaults.map fun nk => ⟨"u", nk.1, nk.2⟩ } :=
  ⟨by decide, (ensure_default_categories_spec store0 "u").1 (by decide)⟩

/-- Witness for C7: the scenario ledger has no row in March 2024, so filtering
to that range yields the empty frame. -/
theorem filterByRange_spec_witness :
    filterByRange exScenario 20240301 20240331 = [] :=
  (filterByRange_spec exScenario 20240301 20240331).2.2.2.1 (by decide)

/-- C4 counterexample: `delete_category` accepts the deleted name itself as the
reassignment target (the `reassign_to` truthiness check does not exclude it);
the "update ... set category = name where category = name" step is then a
no-op, so after the category row is deleted the owner still has a transaction
referencing the deleted name. -/
theorem delete_category_reassign_self_counterexample :
    deleteCategoryUI "u" "Food" (some "Food") exStoreFood =
      .ok (delete_category "u" "Food" (some "Food") exStoreFood) ∧
    ∃ t ∈ (delete_category "u" "Food" (some "Food") exStoreFood).transactions,
      t.user_id = "u" ∧ t.category = "Food" := by
  constructor
  · simp [deleteCategoryUI]
  · refine ⟨⟨1, "u", 20240110, 50, .gasto, "Food", ""⟩, ?_, rfl, rfl⟩
    simp [delete_category, exStoreFood]

/-- C4 (amended): the delete-category flow fails with `CategoryInUse` when a
transaction of the owner references the name and no reassignment target is
given; with a reassignment target other than the deleted name itself (the UI
only offers other categories as targets), it reassigns every referencing
transaction to the target and deletes the category, after which no transaction
of the owner references the deleted name. -/
theorem deleteCategory_spec :
    ∀ (s : Store) (uid name : String),
      ((∃ t ∈ s.transactions, t.user_id = uid ∧ t.category = name) →
        deleteCategoryUI uid name none s = .error .CategoryInUse) ∧
      ∀ r, r ≠ name →
        deleteCategoryUI uid name (some r) s =
          .ok (delete_category uid name (some r) s) ∧
        (∀ t ∈ s.transactions, t.user_id = uid → t.category = name →
          { t with category := r } ∈
            (delete_category uid name (some r) s).transactions) ∧
        (∀ t ∈ (delete_category uid name (some r) s).transactions,
          ¬(t.user_id = uid ∧ t.category = name)) ∧
        (∀ c ∈ (delete_category uid name (some r) s).categories,
          ¬(c.user_id = uid ∧ c.name = name)) := by
  intro s uid name
  constructor
  · rintro ⟨t, ht, h1, h2⟩
    have hmem : t ∈ s.transactions.filter fun t2 =>
        decide (t2.user_id = uid ∧ t2.category = name) :=
      List.mem_filter.mpr ⟨ht, by simp [h1, h2]⟩
    have hpos : 0 < countAssoc uid name s := by
      unfold countAssoc
      exact List.length_pos.mpr (List.ne_nil_of_mem hmem)
    simp [deleteCategoryUI, hpos]
  · intro r hr
    refine ⟨by simp [deleteCategoryUI], ?_, ?_, ?_⟩
    · intro t ht h1 h2
      simp only [delete_category]
      exact List.mem_map.mpr ⟨t, ht, by simp [h1, h2]⟩
    · intro t ht
      simp only [delete_category] at ht
      obtain ⟨x, hx, hxt⟩ := List.mem_map.mp ht
      by_cases hc : x.user_id = uid ∧ x.category = name
      · rw [if_pos hc] at hxt
        rintro ⟨hu, hcat⟩
        rw [← hxt] at hcat
        exact hr hcat
      · rw [if_neg hc] at hxt
        rw [← hxt]
        exact hc
    · intro c hc
      simp only [delete_category] at hc
      have h2 := (List.mem_filter.mp hc).2
      exact of_decide_eq_true h2

/-- Witness for the amended C4 theorem: deleting `"Food"` without a target
fails with `CategoryInUse`; with target `"Other"` the flow succeeds and the
referencing transaction is reassigned to `"Other"`. -/
theorem deleteCategory_spec_witness :
    deleteCategoryUI "u" "Food" none exStoreFood = .error .CategoryInUse ∧
    deleteCategoryUI "u" "Food" (some "Other") exStoreFood =
      .ok (delete_category "u" "Food" (some "Other") exStoreFood) ∧
    (⟨1, "u", 20240110, 50, .gasto, "Other", ""⟩ : Transaction) ∈
      (delete_category "u" "Food" (some "Other") exStoreFood).transactions :=
  ⟨(deleteCategory_spec exStoreFood "u" "Food").1
      ⟨⟨1, "u", 20240110, 50, .gasto, "Food", ""⟩, by simp [exStoreFood], rfl, rfl⟩,
   ((deleteCategory_spec exStoreFood "u" "Food").2 "Other" (by decide)).1,
   ((deleteCategory_spec exStoreFood "u" "Food").2 "Other" (by decide)).2.1
      ⟨1, "u", 20240110, 50, .gasto, "Food", ""⟩ (by simp [exStoreFood]) rfl rfl⟩

/-- C8: `load_transactions` returns the owner's rows sorted by date ascending
(a permutation of the owner's coerced rows), yields `[]` when the owner has
none, only ever returns rows of the owner, and a row whose amount fails
numeric coercion is kept with its amount normalized to `0` instead of the
load being rejected. -/
theorem load_transactions_spec :
    ∀ (uid : String) (db : List RawTx),
      ((load_transactions uid db).map Transaction.tdate).Sorted (· ≤ ·) ∧
      (load_transactions uid db).Perm
        ((db.filter fun r => decide (r.user_id = uid)).map coerceTx) ∧
      ((∀ r ∈ db, r.user_id ≠ uid) → load_transactions uid db = []) ∧
      (∀ t ∈ load_transactions uid db, t.user_id = uid) ∧
      (∀ r ∈ db, r.user_id = uid → r.amount_raw = none →
        coerceTx r ∈ load_transactions uid db ∧ (coerceTx r).amount = 0) := by
  intro uid db
  have hperm : (load_transactions uid db).Perm
      ((db.filter fun r => decide (r.user_id = uid)).map coerceTx) :=
    (List.perm_insertionSort byDateAsc _).map coerceTx
  refine ⟨?_, hperm, ?_, ?_, ?_⟩
  · rw [load_transactions, List.map_map]
    exact List.pairwise_map.mpr
      (List.sorted_insertionSort byDateAsc (db.filter fun r => decide (r.user_id = uid)))
  · intro h
    have hnil : db.filter (fun r => decide (r.user_id = uid)) = [] :=
      List.filter_eq_nil_iff.mpr fun r hr => by simpa using h r hr
    simp [load_transactions, hnil]
  · intro t ht
    have := hperm.mem_iff.mp ht
    obtain ⟨r, hrf, hrt⟩ := List.mem_map.mp this
    have hu : r.user_id = uid := by simpa using (List.mem_filter.mp hrf).2
    rw [← hrt]
    exact hu
  · intro r hr hu hnone
    constructor
    · apply hperm.symm.mem_iff.mp
      exact List.mem_map.mpr ⟨r, List.mem_filter.mpr ⟨hr, by simp [hu]⟩, rfl⟩
    · simp [coerceTx, hnone]

/-- Witness for C8: the uncoercible row of `exRaw` is loaded with amount `0`,
and an owner with no rows loads the empty frame. -/
theorem load_transactions_spec_witness :
    (coerceTx ⟨2, "u", 20240103, none, .gasto, "Comida", ""⟩ ∈
        load_transactions "u" exRaw ∧
      (coerceTx ⟨2, "u", 20240103, none, .gasto, "Comida", ""⟩).amount = 0) ∧
    load_transactions "w" exRaw = [] :=
  ⟨(load_transactions_spec "u" exRaw).2.2.2.2
      ⟨2, "u", 20240103, none, .gasto, "Comida", ""⟩ (by simp [exRaw]) rfl rfl,
   (load_transactions_spec "w" exRaw).2.2.1 (by simp [exRaw])⟩

/-! Helper lemmas for the grouping arguments: summing a per-key aggregate over
a duplicate-free list of keys that covers a list recovers the list's sum. -/

theorem sum_ite_single {β : Type} [DecidableEq β] (v : ℚ) (c : β) :
    ∀ keys : List β, keys.Nodup → c ∈ keys →
      (keys.map fun b => if c = b then v else 0).sum = v := by
  intro keys
  induction keys with
  | nil => intro _ hc; cases hc
  | cons k ks ih =>
      intro hnd hc
      rw [List.map_cons, List.sum_cons]
      rcases List.mem_cons.mp hc with hck | hck
      · subst hck
        rw [if_pos rfl]
        have hzero : (ks.map fun b => if c = b then v else 0).sum = 0 := by
          apply List.sum_eq_zero
          intro x hx
          obtain ⟨b, hb, hxb⟩ := List.mem_map.mp hx
          have hcb : ¬c = b := fun hcb => (List.nodup_cons.mp hnd).1 (hcb ▸ hb)
          rw [← hxb, if_neg hcb]
        rw [hzero, add_zero]
      · have hck2 : ¬c = k := fun he => (List.nodup_cons.mp hnd).1 (he ▸ hck)
        rw [if_neg hck2, zero_add]
        exact ih (List.nodup_cons.mp hnd).2 hck

theorem partition_sum {α β : Type} [DecidableEq β] (v : α → ℚ) (k : α → β) :
    ∀ (l : List α) (keys : List β), keys.Nodup → (∀ x ∈ l, k x ∈ keys) →
      (keys.map fun b => ((l.filter fun x => decide (k x = b)).map v).sum).sum =
        (l.map v).sum := by
  intro l
  induction l with
  | nil => intro keys _ _; simp
  | cons a l ih =>
      intro keys hnd hall
      have hsplit : ∀ b : β,
          (((a :: l).filter fun x => decide (k x = b)).map v).sum =
            (if k a = b then v a else 0) +
              ((l.filter fun x => decide (k x = b)).map v).sum := by
        intro b
        by_cases hab : k a = b
        · simp [List.filter_cons, hab]
        · simp [List.filter_cons, hab]
      calc (keys.map fun b =>
              (((a :: l).filter fun x => decide (k x = b)).map v).sum).sum
          = (keys.map fun b => (if k a = b then v a else 0) +
              ((l.filter fun x => decide (k x = b)).map v).sum).sum := by
            simp only [hsplit]
        _ = (keys.map fun b => if k a = b then v a else 0).sum +
            (keys.map fun b => ((l.filter fun x => decide (k x = b)).map v).sum).sum :=
            List.sum_map_add
        _ = v a + (l.map v).sum := by
            rw [sum_ite_single (v a) (k a) keys hnd (hall a (List.mem_cons_self a l)),
              ih keys hnd fun x hx => hall x (List.mem_cons.mpr (Or.inr hx))]
        _ = ((a :: l).map v).sum := by simp

/-! Helper lemmas about the bucket keys and the cumulative-series builder. -/

theorem bucketDates_nodup (fdf : List Transaction) : (bucketDates fdf).Nodup :=
  (List.perm_insertionSort _ _).nodup_iff.mpr (List.nodup_dedup _)

theorem mem_bucketDates {fdf : List Transaction} {d : Int} :
    d ∈ bucketDates fdf ↔ d ∈ fdf.map Transaction.tdate := by
  rw [bucketDates, (List.perm_insertionSort _ _).mem_iff, List.mem_dedup]

theorem bucketDates_sorted_lt (fdf : List Transaction) :
    (bucketDates fdf).Sorted (· < ·) :=
  (List.sorted_insertionSort _ _).lt_of_le (bucketDates_nodup fdf)

theorem seriesAux_map_tdate (fdf : List Transaction) :
    ∀ (ds : List Int) (acc : ℚ), (seriesAux fdf ds acc).map SeriesRow.tdate = ds := by
  intro ds
  induction ds with
  | nil => intro acc; rfl
  | cons d ds ih => intro acc; simp [seriesAux, ih]

theorem seriesAux_delta (fdf : List Transaction) :
    ∀ (ds : List Int) (acc : ℚ), ∀ r ∈ seriesAux fdf ds acc,
      r.delta = bucketNet fdf r.tdate := by
  intro ds
  induction ds with
  | nil => intro acc r hr; cases hr
  | cons d ds ih =>
      intro acc r hr
      rcases List.mem_cons.mp hr with hr | hr
      · subst hr; rfl
      · exact ih _ r hr

theorem seriesAux_sum_delta (fdf : List Transaction) :
    ∀ (ds : List Int) (acc : ℚ),
      ((seriesAux fdf ds acc).map SeriesRow.delta).sum = (ds.map (bucketNet fdf)).sum := by
  intro ds
  induction ds with
  | nil => intro acc; rfl
  | cons d ds ih => intro acc; simp [seriesAux, ih]

theorem seriesAux_get_saldo (fdf : List Transaction) :
    ∀ (ds : List Int) (acc : ℚ) (i : Fin (seriesAux fdf ds acc).length),
      ((seriesAux fdf ds acc).get i).saldo =
        acc + (((seriesAux fdf ds acc).take (i.1 + 1)).map SeriesRow.delta).sum := by
  intro ds
  induction ds with
  | nil => intro acc i; exact absurd i.2 (by simp [seriesAux])
  | cons d ds ih =>
      intro acc i
      match i with
      | ⟨0, h0⟩ => simp [seriesAux]
      | ⟨j + 1, hj⟩ =>
          have hj2 : j < (seriesAux fdf ds (acc + bucketNet fdf d)).length := by
            have := hj
            simp only [seriesAux, List.length_cons] at this
            omega
          have hrec := ih (acc + bucketNet fdf d) ⟨j, hj2⟩
          simp only [seriesAux, List.get_cons_succ, List.take_succ_cons,
            List.map_cons, List.sum_cons] at hrec ⊢
          rw [hrec]
          ring

theorem seriesAux_getLast_saldo (fdf : List Transaction) :
    ∀ (ds : List Int) (acc : ℚ) (r : SeriesRow),
      (seriesAux fdf ds acc).getLast? = some r →
        r.saldo = acc + (ds.map (bucketNet fdf)).sum := by
  intro ds acc r h
  have hne : seriesAux fdf ds acc ≠ [] := by
    intro hnil
    rw [hnil] at h
    cases h
  have hr : r = (seriesAux fdf ds acc).getLast hne := by
    have := List.getLast?_eq_getLast (seriesAux fdf ds acc) hne
    rw [this] at h
    exact (Option.some.injEq _ _ ▸ h).symm
  have hlenpos : 0 < (seriesAux fdf ds acc).length := List.length_pos.mpr hne
  have hidx : (seriesAux fdf ds acc).length - 1 < (seriesAux fdf ds acc).length := by
    omega
  have hget : (seriesAux fdf ds acc).getLast hne =
      (seriesAux fdf ds acc).get ⟨(seriesAux fdf ds acc).length - 1, hidx⟩ := by
    rw [List.getLast_eq_getElem]
    rfl
  have hsaldo := seriesAux_get_saldo fdf ds acc ⟨(seriesAux fdf ds acc).length - 1, hidx⟩
  have htake : (seriesAux fdf ds acc).length - 1 + 1 = (seriesAux fdf ds acc).length := by
    omega
  rw [htake, List.take_length] at hsaldo
  rw [hr, hget, hsaldo, seriesAux_sum_delta]

/-- C2: every chart row's date is the date of at least one input transaction
(sparse buckets), the rows are in strictly increasing date order, each row's
`delta` is the sum of signed amounts of its day, `saldo` is the prefix sum of
`delta`, the deltas sum to the total signed amount, and hence the last row's
`saldo` equals the sum of signed amounts over all input transactions. -/
theorem balanceSeries_spec :
    ∀ fdf : List Transaction,
      (∀ row ∈ balanceSeries fdf, ∃ t ∈ fdf, t.tdate = row.tdate) ∧
      ((balanceSeries fdf).map SeriesRow.tdate).Sorted (· < ·) ∧
      (∀ row ∈ balanceSeries fdf, row.delta = bucketNet fdf row.tdate) ∧
      (∀ i : Fin (balanceSeries fdf).length,
        ((balanceSeries fdf).get i).saldo =
          (((balanceSeries fdf).take (i.1 + 1)).map SeriesRow.delta).sum) ∧
      ((balanceSeries fdf).map SeriesRow.delta).sum = (fdf.map signedAmount).sum ∧
      (∀ r : SeriesRow, (balanceSeries fdf).getLast? = some r →
        r.saldo = (fdf.map signedAmount).sum) := by
  intro fdf
  have hsum : ((bucketDates fdf).map (bucketNet fdf)).sum = (fdf.map signedAmount).sum :=
    partition_sum signedAmount Transaction.tdate fdf (bucketDates fdf)
      (bucketDates_nodup fdf)
      fun x hx => mem_bucketDates.mpr (List.mem_map.mpr ⟨x, hx, rfl⟩)
  refine ⟨?_, ?_, ?_, ?_, ?_, ?_⟩
  · intro row hrow
    have h1 : row.tdate ∈ (balanceSeries fdf).map SeriesRow.tdate :=
      List.mem_map.mpr ⟨row, hrow, rfl⟩
    rw [balanceSeries, seriesAux_map_tdate] at h1
    obtain ⟨t, ht, htd⟩ := List.mem_map.mp (mem_bucketDates.mp h1)
    exact ⟨t, ht, htd⟩
  · rw [balanceSeries, seriesAux_map_tdate]
    exact bucketDates_sorted_lt fdf
  · intro row hrow
    exact seriesAux_delta fdf (bucketDates fdf) 0 row hrow
  · intro i
    have h := seriesAux_get_saldo fdf (bucketDates fdf) 0 i
    rw [zero_add] at h
    exact h
  · rw [balanceSeries, seriesAux_sum_delta]
    exact hsum
  · intro r hlast
    have h := seriesAux_getLast_saldo fdf (bucketDates fdf) 0 r hlast
    rw [zero_add, hsum] at h
    exact h

/-- Witness for C2 on `exSeries`: its first chart row's date `5` is a
transaction date, and the last row's cumulative `saldo` `50` equals the total
signed amount `100 - 30 - 20`. -/
theorem balanceSeries_spec_witness :
    (∃ t ∈ exSeries, t.tdate = (⟨5, -30, -30⟩ : SeriesRow).tdate) ∧
    (⟨10, 80, 50⟩ : SeriesRow).saldo = (exSeries.map signedAmount).sum := by
  have hb : bucketDates exSeries = [5, 10] := by decide
  have hrows : balanceSeries exSeries = [⟨5, -30, -30⟩, ⟨10, 80, 50⟩] := by
    rw [balanceSeries, hb]
    norm_num [seriesAux, bucketNet, signedAmount, exSeries, List.filter_cons,
      SeriesRow.mk.injEq, gasto_ne_ingreso, inversion_ne_ingreso, ingreso_ne_gasto,
      inversion_ne_gasto, ingreso_ne_inversion, gasto_ne_inversion]
  exact ⟨(balanceSeries_spec exSeries).1 ⟨5, -30, -30⟩
      (by rw [hrows]; exact List.mem_cons_self _ _),
    (balanceSeries_spec exSeries).2.2.2.2.2 ⟨10, 80, 50⟩ (by rw [hrows]; simp)⟩

/-! Helper lemmas for the percentage column: rounding to 2 decimals moves a
value by at most `1/200`, so a sum of `n` rounded values moves by at most
`n/200`. -/

theorem round2_err (q : ℚ) : |round2 q - q| ≤ 1 / 200 := by
  have h := abs_sub_round (q * 100)
  have he : round2 q - q = -((q * 100 - (round (q * 100) : ℤ)) / 100) := by
    rw [round2]; ring
  rw [he, abs_neg, abs_div]
  have h100 : |(100 : ℚ)| = 100 := by norm_num
  rw [h100]
  linarith

theorem sum_round2_close :
    ∀ l : List ℚ, |(l.map round2).sum - l.sum| ≤ (l.length : ℚ) * (1 / 200) := by
  intro l
  induction l with
  | nil => simp
  | cons a l ih =>
      rw [List.map_cons, List.sum_cons, List.sum_cons, List.length_cons]
      have h1 := round2_err a
      have habs : |round2 a + (l.map round2).sum - (a + l.sum)| ≤
          |round2 a - a| + |(l.map round2).sum - l.sum| := by
        have he : round2 a + (l.map round2).sum - (a + l.sum) =
            (round2 a - a) + ((l.map round2).sum - l.sum) := by ring
        rw [he]
        exact abs_add _ _
      have hbound : |round2 a - a| + |(l.map round2).sum - l.sum| ≤
          1 / 200 + (l.length : ℚ) * (1 / 200) := add_le_add h1 ih
      have hcast : ((l.length + 1 : ℕ) : ℚ) * (1 / 200) =
          1 / 200 + (l.length : ℚ) * (1 / 200) := by
        push_cast
        ring
      rw [hcast]
      exact le_trans habs hbound

theorem sum_map_div_mul (c : ℚ) :
    ∀ l : List ℚ, (l.map fun x => x / c * 100).sum = l.sum / c * 100 := by
  intro l
  induction l with
  | nil => simp
  | cons a l ih => rw [List.map_cons, List.sum_cons, List.sum_cons, ih, add_div, add_mul]

/-- C3: the category summary has one row per distinct category of the selected
sub-frame, is sorted by `total` descending, each row's percentage is
`total / total_general * 100` rounded to 2 decimals, the function is total
(defined for every input, including a zero `total_general`), and when
`total_general > 0` the percentages sum to `100` up to the accumulated
rounding error of at most `1/200` per row. -/
theorem categorySummary_spec :
    ∀ (fdf : List Transaction) (tipo : TipoResumen),
      ((categorySummary (subFor fdf tipo)).map CatRow.total).Sorted (fun a b => b ≤ a) ∧
      ((categorySummary (subFor fdf tipo)).map CatRow.category).Perm
        (catNames (subFor fdf tipo)) ∧
      (∀ row ∈ categorySummary (subFor fdf tipo),
        row.pct = round2 (row.total / totalGeneral (subFor fdf tipo) * 100)) ∧
      (categorySummary (subFor fdf tipo)).length = (catNames (subFor fdf tipo)).length ∧
      (0 < totalGeneral (subFor fdf tipo) →
        |((categorySummary (subFor fdf tipo)).map CatRow.pct).sum - 100| ≤
          ((categorySummary (subFor fdf tipo)).length : ℚ) * (1 / 200)) := by
  suffices h : ∀ sub : List Transaction,
      ((categorySummary sub).map CatRow.total).Sorted (fun a b => b ≤ a) ∧
      ((categorySummary sub).map CatRow.category).Perm (catNames sub) ∧
      (∀ row ∈ categorySummary sub,
        row.pct = round2 (row.total / totalGeneral sub * 100)) ∧
      (categorySummary sub).length = (catNames sub).length ∧
      (0 < totalGeneral sub →
        |((categorySummary sub).map CatRow.pct).sum - 100| ≤
          ((categorySummary sub).length : ℚ) * (1 / 200)) by
    intro fdf tipo
    exact h (subFor fdf tipo)
  intro sub
  refine ⟨?_, ?_, ?_, ?_, ?_⟩
  · rw [categorySummary, List.map_map]
    exact List.pairwise_map.mpr
      (List.sorted_insertionSort byTotalDesc
        ((catNames sub).map fun c => ⟨c, catTotal sub c, catCount sub c⟩))
  · rw [categorySummary, List.map_map]
    have hbase : (((catNames sub).map fun c =>
        (⟨c, catTotal sub c, catCount sub c⟩ : CatRow0)).map CatRow0.category) =
          catNames sub := by
      rw [List.map_map]
      exact List.map_id _
    have hperm := (List.perm_insertionSort byTotalDesc
        ((catNames sub).map fun c =>
          (⟨c, catTotal sub c, catCount sub c⟩ : CatRow0))).map CatRow0.category
    rw [hbase] at hperm
    exact hperm
  · intro row hrow
    rw [categorySummary] at hrow
    obtain ⟨r0, _, hr0⟩ := List.mem_map.mp hrow
    rw [← hr0]
  · rw [categorySummary, List.length_map, categoryRows, List.length_insertionSort,
      List.length_map]
  · intro hT
    have hTne : totalGeneral sub ≠ 0 := ne_of_gt hT
    have hmap : (categorySummary sub).map CatRow.pct =
        ((categoryRows sub).map fun r =>
          r.total / totalGeneral sub * 100).map round2 := by
      rw [categorySummary, List.map_map, List.map_map]
      rfl
    have hsuml : ((categoryRows sub).map fun r =>
        r.total / totalGeneral sub * 100).sum = 100 := by
      have hcomp : ((categoryRows sub).map fun r =>
          r.total / totalGeneral sub * 100) =
            (((categoryRows sub).map CatRow0.total).map fun x =>
              x / totalGeneral sub * 100) := by
        rw [List.map_map]
        rfl
      rw [hcomp, sum_map_div_mul, ← totalGeneral, div_self hTne, one_mul]
    have hlen : (categorySummary sub).length =
        ((categoryRows sub).map fun r => r.total / totalGeneral sub * 100).length := by
      rw [categorySummary, List.length_map, List.length_map]
    rw [hmap, hlen]
    have := sum_round2_close ((categoryRows sub).map fun r =>
      r.total / totalGeneral sub * 100)
    rw [hsuml] at this
    exact this

/-- Witness for C3 on `exCats` (single category `Comida`, total 70, two
movements): its percentage row is `100%`, and the percentage column sums to
`100` within the rounding bound. -/
theorem categorySummary_spec_witness :
    (⟨"Comida", 70, 2, 100⟩ : CatRow).pct =
      round2 ((⟨"Comida", 70, 2, 100⟩ : CatRow).total /
        totalGeneral (subFor exCats (TipoResumen.single Kind.gasto)) * 100) ∧
    |((categorySummary (subFor exCats (TipoResumen.single Kind.gasto))).map
        CatRow.pct).sum - 100| ≤
      ((categorySummary (subFor exCats (TipoResumen.single Kind.gasto))).length : ℚ) *
        (1 / 200) := by
  have hsub : subFor exCats (TipoResumen.single Kind.gasto) = exCats := by
    simp [subFor, exCats, List.filter_cons]
  have hnames : catNames exCats = ["Comida"] := by decide
  have hrows : categoryRows exCats = [⟨"Comida", 70, 2⟩] := by
    rw [categoryRows, hnames]
    norm_num [catTotal, catCount, exCats, List.filter_cons, List.insertionSort,
      List.orderedInsert, CatRow0.mk.injEq]
  have hT : totalGeneral exCats = 70 := by
    rw [totalGeneral, hrows]
    norm_num
  have hsummary : categorySummary exCats = [⟨"Comida", 70, 2, 100⟩] := by
    rw [categorySummary, hrows, hT]
    norm_num [round2, CatRow.mk.injEq]
  constructor
  · exact (categorySummary_spec exCats (TipoResumen.single Kind.gasto)).2.2.1
      ⟨"Comida", 70, 2, 100⟩ (by rw [hsub, hsummary]; exact List.mem_cons_self _ _)
  · exact (categorySummary_spec exCats (TipoResumen.single Kind.gasto)).2.2.2.2
      (by rw [hsub, hT]; norm_num)

end Finanzas
